import Mathlib

/-!
# Verification of the voice-diary Diary Consolidation Engine

A shallow embedding of the core logic of the voice-diary repository
(`src/server/routers.ts`, `src/server/notion.ts`, `src/fix-diary-dates.mjs`,
and the `notion.mergeDuplicates` batch in the final router revision), with
theorems settling the behavioural claims of the specification.

Conventions:
* JavaScript strings are `String`, arrays are `List`, `Set` insertion-order
  semantics are `dedupStr` (first occurrence kept).
* Calendar dates are either `(y, m, d)` triples (`CivilDate`) or day numbers
  relative to the Unix epoch (`daysFromCivil`); all the code's date values are
  midnights in the fixed JST timezone, where millisecond arithmetic in steps
  of 86 400 000 coincides with day-number arithmetic (JST has no DST).
* Fallible store / collaborator calls are modelled with `Except`/`Option`
  parameters describing the external outcome.
-/

/- ## Decimal rendering of natural numbers (JS template `${n}` / toString) -/

/-- The decimal digit character for `k` (`k < 10`). -/
def digitCh : Nat → Char
  | 0 => '0' | 1 => '1' | 2 => '2' | 3 => '3' | 4 => '4'
  | 5 => '5' | 6 => '6' | 7 => '7' | 8 => '8' | 9 => '9'
  | _ => '0'

/-- Numeric value of a decimal digit character (`'0'` ↦ 0, …). -/
def charVal (c : Char) : Nat := c.toNat - 48

/-- Fuel-bounded big-endian decimal digit list of `n` (fuel `≥ n` suffices). -/
def natCharsAux : Nat → Nat → List Char
  | 0, _ => []
  | _ + 1, 0 => []
  | fuel + 1, n + 1 => natCharsAux fuel ((n + 1) / 10) ++ [digitCh ((n + 1) % 10)]

/-- Big-endian decimal digit characters of `n`, as JS `String(n)` produces. -/
def natChars (n : Nat) : List Char := if n = 0 then ['0'] else natCharsAux n n

/-- JS `String(n)` / template-literal rendering of a natural number. -/
def natStr (n : Nat) : String := String.mk (natChars n)

theorem natCharsAux_zero (f : Nat) : natCharsAux f 0 = [] := by
  cases f <;> rfl

theorem natCharsAux_step (f n : Nat) (hf : 0 < f) (hn : 0 < n) :
    natCharsAux f n = natCharsAux (f - 1) (n / 10) ++ [digitCh (n % 10)] := by
  obtain ⟨f', rfl⟩ : ∃ f', f = f' + 1 := ⟨f - 1, by omega⟩
  obtain ⟨n', rfl⟩ : ∃ n', n = n' + 1 := ⟨n - 1, by omega⟩
  rfl

/-- Fuel irrelevance: any fuel at least `n` gives the same digit list. -/
theorem natCharsAux_fuel (n : Nat) : ∀ f f', n ≤ f → n ≤ f' →
    natCharsAux f n = natCharsAux f' n := by
  induction n using Nat.strong_induction_on with
  | _ n ih =>
    intro f f' hf hf'
    rcases Nat.eq_zero_or_pos n with hn | hn
    · subst hn; rw [natCharsAux_zero, natCharsAux_zero]
    · rw [natCharsAux_step f n (by omega) hn, natCharsAux_step f' n (by omega) hn]
      have hlt : n / 10 < n := Nat.div_lt_self hn (by omega)
      rw [ih (n / 10) hlt (f - 1) (f' - 1) (by omega) (by omega)]

theorem natChars_one_digit (n : Nat) (h1 : 1 ≤ n) (h9 : n ≤ 9) :
    natChars n = [digitCh n] := by
  unfold natChars
  rw [if_neg (by omega), natCharsAux_step n n (by omega) (by omega)]
  have h10 : n / 10 = 0 := by omega
  have hm : n % 10 = n := by omega
  rw [h10, natCharsAux_zero, hm, List.nil_append]

theorem natChars_two_digits (n : Nat) (h1 : 10 ≤ n) (h9 : n ≤ 99) :
    natChars n = [digitCh (n / 10), digitCh (n % 10)] := by
  unfold natChars
  rw [if_neg (by omega), natCharsAux_step n n (by omega) (by omega)]
  rw [natCharsAux_fuel (n / 10) (n - 1) (n / 10) (by omega) (by omega)]
  have : natCharsAux (n / 10) (n / 10) = natChars (n / 10) := by
    unfold natChars; rw [if_neg (by omega)]
  rw [this, natChars_one_digit (n / 10) (by omega) (by omega)]
  rfl

theorem natChars_four_digits (n : Nat) (h1 : 1000 ≤ n) (h9 : n ≤ 9999) :
    natChars n = [digitCh (n / 1000), digitCh (n / 100 % 10),
                  digitCh (n / 10 % 10), digitCh (n % 10)] := by
  unfold natChars
  rw [if_neg (by omega), natCharsAux_step n n (by omega) (by omega)]
  rw [natCharsAux_fuel (n / 10) (n - 1) (n / 10) (by omega) (by omega)]
  rw [natCharsAux_step (n / 10) (n / 10) (by omega) (by omega)]
  rw [natCharsAux_fuel (n / 10 / 10) (n / 10 - 1) (n / 10 / 10) (by omega) (by omega)]
  rw [natCharsAux_step (n / 10 / 10) (n / 10 / 10) (by omega) (by omega)]
  rw [natCharsAux_fuel (n / 10 / 10 / 10) (n / 10 / 10 - 1) (n / 10 / 10 / 10)
      (by omega) (by omega)]
  rw [natCharsAux_step (n / 10 / 10 / 10) (n / 10 / 10 / 10) (by omega) (by omega)]
  have hz : n / 10 / 10 / 10 / 10 = 0 := by omega
  rw [hz, natCharsAux_zero]
  have e1 : n / 10 / 10 / 10 % 10 = n / 1000 := by omega
  have e2 : n / 10 / 10 % 10 = n / 100 % 10 := by omega
  rw [e1, e2]
  simp

theorem charVal_digitCh (k : Nat) (hk : k < 10) : charVal (digitCh k) = k := by
  interval_cases k <;> decide

theorem isDigit_digitCh (k : Nat) (hk : k < 10) : (digitCh k).isDigit = true := by
  interval_cases k <;> decide

/- ## Canonical diary title

`recording.process` (src/server/routers.ts:148-153) builds the title as
``日記 ${year}/${parseInt(month)}/${parseInt(day)}`` from the JST components of
the resolved date: a 4-digit year and non-zero-padded month and day. -/

/-- The canonical title `日記 {Y}/{M}/{D}` (month/day non-zero-padded). -/
def canonicalTitle (y m d : Nat) : String :=
  "日記 " ++ natStr y ++ "/" ++ natStr m ++ "/" ++ natStr d

theorem string_data_append (a b : String) : (a ++ b).data = a.data ++ b.data := rfl

theorem canonicalTitle_data (y m d : Nat) :
    (canonicalTitle y m d).data =
      '日' :: '記' :: ' ' :: (natChars y ++ '/' :: (natChars m ++ '/' :: natChars d)) := by
  show ("日記 " ++ natStr y ++ "/" ++ natStr m ++ "/" ++ natStr d).data = _
  rw [string_data_append, string_data_append, string_data_append, string_data_append]
  show ['日', '記', ' '] ++ natChars y ++ ['/'] ++ natChars m ++ ['/'] ++ natChars d = _
  simp

/- ## The repair utility's title parser

`extractDateFromTitle` (src/fix-diary-dates.mjs:45-56) matches the regex
`/日記\s*(\d{4})\/(\d{1,2})\/(\d{1,2})/` against the title and returns the
captured groups, with month and day zero-padded to two characters, as a
`YYYY-MM-DD` string.  The embedding below implements exactly that regex
(searching every start position, with the greedy/backtracking behaviour of
`\s*` and `\d{1,2}`) over the title's character list.  `\s` is modelled by the
ASCII whitespace characters; the canonical titles the claims quantify over
contain only the plain space. -/

def isSpaceCh (c : Char) : Bool :=
  c = ' ' || c = '\t' || c = '\n' || c = '\r' || c = '\x0b' || c = '\x0c'

/-- `(\d{4})`: exactly four digit characters; returns the group and the rest. -/
def takeDigits4 : List Char → Option (List Char × List Char)
  | a :: b :: c :: d :: rest =>
    if a.isDigit && b.isDigit && c.isDigit && d.isDigit then
      some ([a, b, c, d], rest)
    else none
  | _ => none

/-- `(\d{1,2})\/`: one or two digits (greedy, with backtracking) followed by
a slash; returns the digit group and the rest after the slash. -/
def takeD12Slash : List Char → Option (List Char × List Char)
  | [] => none
  | a :: rest1 =>
    if a.isDigit then
      match rest1 with
      | [] => none
      | b :: rest2 =>
        if b.isDigit then
          match rest2 with
          | '/' :: rest3 => some ([a, b], rest3)
          | _ => none
        else if b = '/' then some ([a], rest2)
        else none
    else none

/-- `(\d{1,2})` at the end of the pattern: one or two digits, greedy. -/
def takeD12End : List Char → Option (List Char × List Char)
  | [] => none
  | a :: rest1 =>
    if a.isDigit then
      match rest1 with
      | [] => some ([a], [])
      | b :: rest2 => if b.isDigit then some ([a, b], rest2) else some ([a], rest1)
    else none

/-- Attempt the regex match anchored at the head of `cs`; on success returns
the three captured digit groups (year, month, day). -/
def matchDiaryAt (cs : List Char) : Option (List Char × List Char × List Char) :=
  match cs with
  | '日' :: '記' :: rest =>
    let rest2 := rest.dropWhile isSpaceCh
    match takeDigits4 rest2 with
    | some (yG, r3) =>
      match r3 with
      | '/' :: r4 =>
        match takeD12Slash r4 with
        | some (mG, r5) =>
          match takeD12End r5 with
          | some (dG, _) => some (yG, mG, dG)
          | none => none
        | none => none
      | _ => none
    | none => none
  | _ => none

/-- Unanchored regex search: try the match at every start position. -/
def searchDiary : List Char → Option (List Char × List Char × List Char)
  | [] => none
  | c :: rest =>
    match matchDiaryAt (c :: rest) with
    | some r => some r
    | none => searchDiary rest

/-- Numeric value of a big-endian digit-character group (`parseInt`). -/
def charsToNat (cs : List Char) : Nat :=
  cs.foldl (fun acc c => 10 * acc + charVal c) 0

/-- The captured groups of the repair utility's title match, as numbers. -/
def extractDateFromTitleParts (title : String) : Option (Nat × Nat × Nat) :=
  (searchDiary title.data).map fun g => (charsToNat g.1, charsToNat g.2.1, charsToNat g.2.2)

/-- `padStart(2, '0')` on a digit group. -/
def padStart2 (g : List Char) : List Char := if g.length < 2 then '0' :: g else g

/-- `extractDateFromTitle` (src/fix-diary-dates.mjs:45-56): the `YYYY-MM-DD`
string assembled from the captured groups, or `none` when the regex fails. -/
def extractDateFromTitle (title : String) : Option String :=
  (searchDiary title.data).map fun g =>
    String.mk (g.1 ++ '-' :: (padStart2 g.2.1 ++ '-' :: padStart2 g.2.2))

theorem isSpaceCh_digitCh (k : Nat) (hk : k < 10) : isSpaceCh (digitCh k) = false := by
  interval_cases k <;> decide

theorem matchDiaryAt_cons (rest : List Char) :
    matchDiaryAt ('日' :: '記' :: rest) =
      (match takeDigits4 (rest.dropWhile isSpaceCh) with
       | some (yG, r3) =>
         match r3 with
         | '/' :: r4 =>
           match takeD12Slash r4 with
           | some (mG, r5) =>
             match takeD12End r5 with
             | some (dG, _) => some (yG, mG, dG)
             | none => none
           | none => none
         | _ => none
       | none => none) := rfl

theorem takeDigits4_cons (a b c d : Char) (rest : List Char)
    (ha : a.isDigit = true) (hb : b.isDigit = true) (hc : c.isDigit = true)
    (hd : d.isDigit = true) :
    takeDigits4 (a :: b :: c :: d :: rest) = some ([a, b, c, d], rest) := by
  simp [takeDigits4, ha, hb, hc, hd]


theorem takeD12Slash_one (a : Char) (rest : List Char) (ha : a.isDigit = true) :
    takeD12Slash (a :: '/' :: rest) = some ([a], '/' :: rest |>.tail) := by
  simp [takeD12Slash, ha]

theorem natChars_month (m : Nat) (h1 : 1 ≤ m) (h2 : m ≤ 12) (rest : List Char) :
    takeD12Slash (natChars m ++ '/' :: rest) = some (natChars m, rest) := by
  rcases Nat.lt_or_ge m 10 with h | h
  · rw [natChars_one_digit m h1 (by omega)]
    simp [takeD12Slash, isDigit_digitCh m (by omega)]
  · rw [natChars_two_digits m h (by omega)]
    simp [takeD12Slash, isDigit_digitCh (m / 10) (by omega), isDigit_digitCh (m % 10) (by omega)]

theorem natChars_day (d : Nat) (h1 : 1 ≤ d) (h2 : d ≤ 31) :
    takeD12End (natChars d) = some (natChars d, []) := by
  rcases Nat.lt_or_ge d 10 with h | h
  · rw [natChars_one_digit d h1 (by omega)]
    simp [takeD12End, isDigit_digitCh d (by omega)]
  · rw [natChars_two_digits d h (by omega)]
    simp [takeD12End, isDigit_digitCh (d / 10) (by omega), isDigit_digitCh (d % 10) (by omega)]

theorem matchDiaryAt_canonical (y m d : Nat) (hy1 : 1000 ≤ y) (hy2 : y ≤ 9999)
    (hm1 : 1 ≤ m) (hm2 : m ≤ 12) (hd1 : 1 ≤ d) (hd2 : d ≤ 31) :
    matchDiaryAt (canonicalTitle y m d).data = some (natChars y, natChars m, natChars d) := by
  rw [canonicalTitle_data, matchDiaryAt_cons]
  have hdrop : ((' ' :: (natChars y ++ '/' :: (natChars m ++ '/' :: natChars d))).dropWhile isSpaceCh)
      = natChars y ++ '/' :: (natChars m ++ '/' :: natChars d) := by
    rw [natChars_four_digits y hy1 hy2]
    simp only [List.cons_append]
    rw [List.dropWhile_cons_of_pos (by decide),
        List.dropWhile_cons_of_neg (by simp [isSpaceCh_digitCh (y / 1000) (by omega)])]
  rw [hdrop]
  have h4 := natChars_four_digits y hy1 hy2
  rw [h4]
  simp only [List.cons_append]
  rw [takeDigits4_cons _ _ _ _ _ (isDigit_digitCh _ (by omega)) (isDigit_digitCh _ (by omega))
      (isDigit_digitCh _ (by omega)) (isDigit_digitCh _ (by omega))]
  simp only [List.nil_append]
  simp [natChars_month m hm1 hm2, natChars_day d hd1 hd2]

theorem charsToNat_natChars_small (n : Nat) (h1 : 1 ≤ n) (h2 : n ≤ 99) :
    charsToNat (natChars n) = n := by
  rcases Nat.lt_or_ge n 10 with h | h
  · rw [natChars_one_digit n h1 (by omega)]
    simp [charsToNat, charVal_digitCh n (by omega)]
  · rw [natChars_two_digits n h (by omega)]
    simp [charsToNat, charVal_digitCh (n / 10) (by omega), charVal_digitCh (n % 10) (by omega)]
    omega

theorem charsToNat_natChars_year (n : Nat) (h1 : 1000 ≤ n) (h2 : n ≤ 9999) :
    charsToNat (natChars n) = n := by
  rw [natChars_four_digits n h1 h2]
  simp [charsToNat, charVal_digitCh (n / 1000) (by omega), charVal_digitCh (n / 100 % 10) (by omega),
        charVal_digitCh (n / 10 % 10) (by omega), charVal_digitCh (n % 10) (by omega)]
  omega

/-- C7 (amended): canonical-title round trip for four-digit years. -/
theorem extractDateFromTitle_roundtrip (y m d : Nat) (hy1 : 1000 ≤ y) (hy2 : y ≤ 9999)
    (hm1 : 1 ≤ m) (hm2 : m ≤ 12) (hd1 : 1 ≤ d) (hd2 : d ≤ 31) :
    extractDateFromTitleParts (canonicalTitle y m d) = some (y, m, d) := by
  have hmatch := matchDiaryAt_canonical y m d hy1 hy2 hm1 hm2 hd1 hd2
  have hsearch : searchDiary (canonicalTitle y m d).data = some (natChars y, natChars m, natChars d) := by
    rw [canonicalTitle_data] at hmatch ⊢
    simp [searchDiary, hmatch]
  unfold extractDateFromTitleParts
  rw [hsearch]
  simp [charsToNat_natChars_year y hy1 hy2, charsToNat_natChars_small m hm1 (by omega),
        charsToNat_natChars_small d hd1 (by omega)]

/-- C7 counterexample: for the calendar date (500, 1, 5) the canonical title
is 日記 500/1/5, whose three-digit year the regex `\d{4}` cannot match, so
the repair utility's parse returns null instead of recovering (500, 1, 5). -/
theorem roundtrip_counterexample :
    extractDateFromTitle (canonicalTitle 500 1 5) = Option.none ∧
    extractDateFromTitleParts (canonicalTitle 500 1 5) ≠ some (500, 1, 5) := by decide

/-- Witness for the amended round-trip theorem at a concrete date. -/
theorem extractDateFromTitle_roundtrip_witness :
    (1000 ≤ 2026 ∧ 2026 ≤ 9999 ∧ 1 ≤ 1 ∧ (1 : Nat) ≤ 12 ∧ 1 ≤ 22 ∧ 22 ≤ 31) ∧
    extractDateFromTitleParts (canonicalTitle 2026 1 22) = some (2026, 1, 22) :=
  ⟨by decide, extractDateFromTitle_roundtrip 2026 1 22 (by decide) (by decide)
    (by decide) (by decide) (by decide) (by decide)⟩

/- ## Calendar dates and the Date Resolver (`extractMetadata`)

`extractMetadata` (src/server/routers.ts:427-594) computes `currentDate` as
midnight JST of the current day, asks the collaborator for a structured
`dateInfo` judgment, and derives `finalDate`:

* `dateInfo = null`                      → `currentDate`;
* `{type:"specific", date}`              → the parsed date when it is a valid
  date inside `[oneYearAgo, oneWeekLater]`, where `oneYearAgo` is
  `currentDate` with `setFullYear(year - 1)` and `oneWeekLater` is
  `currentDate` with `setDate(date + 7)`; otherwise `currentDate`;
* `{type:"relative", days}`              → `currentDate + days·86 400 000 ms`
  when `-365 ≤ days ≤ 7`, otherwise `currentDate`.

All values are midnight-JST timestamps, so the embedding works with day
numbers.  `daysFromCivil` is the civil-calendar day number (days since
1970-01-01); it is linear in the day component, which reproduces the
JavaScript `Date` normalisation used by `setFullYear`/`setDate`
(e.g. Feb 29 of a non-leap year normalises to Mar 1). -/

/-- A calendar date `(year, month, day)` as JS `Date` components. -/
structure CivilDate where
  y : Int
  m : Int
  d : Int
deriving DecidableEq, Repr

/-- Day number since 1970-01-01 of a civil date (Howard Hinnant's
`days_from_civil`, with floor division); linear in `d`. -/
def daysFromCivil (c : CivilDate) : Int :=
  let yAdj := if c.m ≤ 2 then c.y - 1 else c.y
  let era := Int.fdiv yAdj 400
  let yoe := yAdj - era * 400
  let mp := Int.emod (c.m + 9) 12
  let doy := Int.fdiv (153 * mp + 2) 5 + c.d - 1
  let doe := yoe * 365 + Int.fdiv yoe 4 - Int.fdiv yoe 100 + doy
  era * 146097 + doe - 719468

/-- The collaborator's structured date judgment
(`{type:"specific"}` / `{type:"relative"}` / `null`).  A `specific` judgment
carries `none` when `new Date(...)` yields an invalid date (`NaN`). -/
inductive DateInfo
  | noDate
  | specific (d : Option CivilDate)
  | relative (days : Int)
deriving DecidableEq, Repr

/-- The acceptance window of `extractMetadata` for a specific date:
`oneYearAgo ≤ date ≤ oneWeekLater` (src/server/routers.ts:550-563), with
`oneYearAgo` = same month/day one calendar year earlier and `oneWeekLater`
= today + 7 days. -/
def specificDateInWindow (today d : CivilDate) : Prop :=
  daysFromCivil ⟨today.y - 1, today.m, today.d⟩ ≤ daysFromCivil d ∧
  daysFromCivil d ≤ daysFromCivil today + 7

instance (today d : CivilDate) : Decidable (specificDateInWindow today d) := by
  unfold specificDateInWindow; infer_instance

/-- The `finalDate` computation of `extractMetadata`
(src/server/routers.ts:540-586), as a day number. -/
def extractFinalDate (info : DateInfo) (today : CivilDate) : Int :=
  match info with
  | .noDate => daysFromCivil today
  | .specific none => daysFromCivil today
  | .specific (some d) =>
    if daysFromCivil ⟨today.y - 1, today.m, today.d⟩ ≤ daysFromCivil d ∧
       daysFromCivil d ≤ daysFromCivil today + 7 then
      daysFromCivil d
    else
      daysFromCivil today
  | .relative days =>
    if -365 ≤ days ∧ days ≤ 7 then daysFromCivil today + days
    else daysFromCivil today

/-- The successfully parsed collaborator payload
(`{dateInfo, tags}`, schema at src/server/routers.ts:483-524). -/
structure ParsedMeta where
  dateInfo : DateInfo
  tags : List String
deriving DecidableEq, Repr

/-- Outcome of the collaborator call inside `extractMetadata`:
`failed` models a rejected `invokeLLM` promise (the call itself throwing);
`returned none` models a response whose content is not a string or fails
`JSON.parse`; `returned (some p)` a parsed payload. -/
inductive LLMOutcome
  | failed
  | returned (content : Option ParsedMeta)
deriving DecidableEq, Repr

/-- `extractMetadata` (src/server/routers.ts:427-594): the resolved day
number and tag list, or the propagated exception.  The `try`/`catch` in the
source wraps only `JSON.parse` (lines 533-538); a rejection of the
`invokeLLM` call itself is not caught and propagates to the caller. -/
def extractMetadata (o : LLMOutcome) (today : CivilDate) : Except Unit (Int × List String) :=
  match o with
  | .failed => .error ()
  | .returned none => .ok (daysFromCivil today, [])
  | .returned (some p) => .ok (extractFinalDate p.dateInfo today, p.tags)

/-- C2: the Date Resolver's clamping policy.  A `relative(days)` judgment
with `-365 ≤ days ≤ 7` resolves to today + `days`; outside the range it
resolves to today.  A `specific(date)` judgment is accepted exactly when the
date lies in the window `[today − 1 year, today + 1 week]` (lower bound:
same month/day of the previous calendar year, as `setFullYear` computes it);
outside the window it resolves to today.  A `null` judgment resolves to
today. -/
theorem extractMetadata_clamping (today : CivilDate) (tags : List String) :
    (∀ ds : Int, -365 ≤ ds → ds ≤ 7 →
      extractMetadata (.returned (some ⟨.relative ds, tags⟩)) today =
        .ok (daysFromCivil today + ds, tags)) ∧
    (∀ ds : Int, (ds < -365 ∨ 7 < ds) →
      extractMetadata (.returned (some ⟨.relative ds, tags⟩)) today =
        .ok (daysFromCivil today, tags)) ∧
    (∀ d : CivilDate, specificDateInWindow today d →
      extractMetadata (.returned (some ⟨.specific (some d), tags⟩)) today =
        .ok (daysFromCivil d, tags)) ∧
    (∀ d : CivilDate, ¬ specificDateInWindow today d →
      extractMetadata (.returned (some ⟨.specific (some d), tags⟩)) today =
        .ok (daysFromCivil today, tags)) ∧
    (extractMetadata (.returned (some ⟨.noDate, tags⟩)) today =
      .ok (daysFromCivil today, tags)) := by
  refine ⟨?_, ?_, ?_, ?_, ?_⟩
  · intro ds h1 h2
    simp [extractMetadata, extractFinalDate, h1, h2]
  · intro ds h
    have : ¬ (-365 ≤ ds ∧ ds ≤ 7) := by omega
    simp [extractMetadata, extractFinalDate, this]
  · intro d h
    simp [extractMetadata, extractFinalDate, h.1, h.2]
  · intro d h
    rw [specificDateInWindow, not_and_or] at h
    rcases h with h | h <;> simp [extractMetadata, extractFinalDate, h]
  · simp [extractMetadata, extractFinalDate]

/-- Witness for the clamping policy at concrete judgments and a concrete
today (2026-01-23). -/
theorem extractMetadata_clamping_witness :
    extractMetadata (.returned (some ⟨.relative (-1), ["仕事"]⟩)) ⟨2026, 1, 23⟩ =
      .ok (daysFromCivil ⟨2026, 1, 23⟩ + (-1), ["仕事"]) ∧
    extractMetadata (.returned (some ⟨.relative (-400), ["仕事"]⟩)) ⟨2026, 1, 23⟩ =
      .ok (daysFromCivil ⟨2026, 1, 23⟩, ["仕事"]) ∧
    extractMetadata (.returned (some ⟨.specific (some ⟨2026, 1, 20⟩), ["仕事"]⟩)) ⟨2026, 1, 23⟩ =
      .ok (daysFromCivil ⟨2026, 1, 20⟩, ["仕事"]) ∧
    extractMetadata (.returned (some ⟨.specific (some ⟨2020, 1, 20⟩), ["仕事"]⟩)) ⟨2026, 1, 23⟩ =
      .ok (daysFromCivil ⟨2026, 1, 23⟩, ["仕事"]) :=
  ⟨(extractMetadata_clamping ⟨2026, 1, 23⟩ ["仕事"]).1 (-1) (by decide) (by decide),
   (extractMetadata_clamping ⟨2026, 1, 23⟩ ["仕事"]).2.1 (-400) (Or.inl (by decide)),
   (extractMetadata_clamping ⟨2026, 1, 23⟩ ["仕事"]).2.2.1 ⟨2026, 1, 20⟩ (by decide),
   (extractMetadata_clamping ⟨2026, 1, 23⟩ ["仕事"]).2.2.2.1 ⟨2020, 1, 20⟩ (by decide)⟩

/-- C5 counterexample: when the collaborator call itself fails (the
`invokeLLM` promise rejects), `extractMetadata` does not resolve to today
with empty tags — the exception propagates to the caller. -/
theorem extractMetadata_failure_counterexample :
    extractMetadata .failed ⟨2026, 1, 23⟩ = .error () ∧
    extractMetadata .failed ⟨2026, 1, 23⟩ ≠
      .ok (daysFromCivil ⟨2026, 1, 23⟩, []) :=
  ⟨rfl, fun h => Except.noConfusion h⟩

/-- C5 (amended): when the collaborator *returns* unparsable output (content
that is not a string or fails `JSON.parse`), `extractMetadata` resolves to
today with an empty tag set and raises no error; but when the collaborator
call itself fails, the exception propagates (the caller marks the recording
failed). -/
theorem extractMetadata_fallback (today : CivilDate) :
    extractMetadata (.returned none) today = .ok (daysFromCivil today, []) ∧
    extractMetadata .failed today = .error () := ⟨rfl, rfl⟩

/- ## JS `Set` insertion-order deduplication (`Array.from(new Set(...))`) -/

/-- `Array.from(new Set(l))`: keep the first occurrence of each element. -/
def dedupStr (l : List String) : List String :=
  l.foldl (fun acc t => if t ∈ acc then acc else acc ++ [t]) []

theorem mem_dedupStr_foldl (l : List String) :
    ∀ (acc : List String) (x : String),
      (x ∈ l.foldl (fun acc t => if t ∈ acc then acc else acc ++ [t]) acc) ↔ x ∈ acc ∨ x ∈ l := by
  induction l with
  | nil => intro acc x; simp
  | cons a l ih =>
    intro acc x
    by_cases ha : a ∈ acc
    · simp only [List.foldl_cons, if_pos ha, ih acc x, List.mem_cons]
      constructor
      · rintro (h | h)
        · exact Or.inl h
        · exact Or.inr (Or.inr h)
      · rintro (h | rfl | h)
        · exact Or.inl h
        · exact Or.inl ha
        · exact Or.inr h
    · simp only [List.foldl_cons, if_neg ha, ih (acc ++ [a]) x, List.mem_append,
        List.mem_singleton, List.mem_cons]
      tauto

theorem mem_dedupStr (l : List String) (x : String) : x ∈ dedupStr l ↔ x ∈ l := by
  unfold dedupStr
  rw [mem_dedupStr_foldl l [] x]
  simp

/- ## Merge Engine tag reconciliation (`mergeWithExistingDiary`)

`mergeWithExistingDiary` (src/server/routers.ts:328-422) receives a `params`
object typed `{existingPageId, existingContent, newContent, tags, date}` and
computes `mergedTags = Array.from(new Set([...existingTags, ...params.tags]))`
where `existingTags = (params as any).existingTags || []` (lines 364-366).
Its only caller, `recording.process` (lines 136-145), builds `params` with
exactly those five fields — although `findExistingDiaryByDate` returns the
page's `existingTags`, they are never passed in — so the `existingTags`
access yields `undefined` and the fallback `[]` is always used. -/

/-- The `params` record of `mergeWithExistingDiary` (its declared TS type has
no `existingTags` field); `existingTagsAny` models the untyped
`(params as any).existingTags` access, `none` = `undefined`. -/
structure MergeParams where
  existingPageId : String
  existingContent : String
  newContent : String
  tags : List String
  date : CivilDate
  existingTagsAny : Option (List String)
deriving DecidableEq, Repr

/-- `mergedTags` as computed at src/server/routers.ts:364-366. -/
def mergeWithExistingDiary_mergedTags (p : MergeParams) : List String :=
  dedupStr (p.existingTagsAny.getD [] ++ p.tags)

/-- The tag set `recording.process` causes to be written when merging into an
existing page: it calls `mergeWithExistingDiary` with only the five declared
fields (src/server/routers.ts:139-145), leaving `existingTagsAny` absent,
whatever tags the located page (`foundEntryTags`) already carries. -/
def process_writtenTags (foundEntryTags : List String) (allTags : List String) : List String :=
  mergeWithExistingDiary_mergedTags
    { existingPageId := "", existingContent := "", newContent := "",
      tags := allTags, date := ⟨2026, 1, 23⟩, existingTagsAny := none }

/-- C3 (code bug): at the failing input — existing page tags `["健康"]`, new
tags `["仕事"]` — the tag set written by the merge is `["仕事"]` alone; the
page's existing tag `"健康"` is dropped rather than unioned, because
`recording.process` never forwards the located page's tags into
`mergeWithExistingDiary`, contradicting the code's own comment
("combine existing tags with new tags"). -/
theorem process_writtenTags_drops_existing :
    process_writtenTags ["健康"] ["仕事"] = ["仕事"] ∧
    "健康" ∉ process_writtenTags ["健康"] ["仕事"] := by decide

/- ## Merge Engine failure recovery (`mergeWithExistingDiary`, update path)

After computing `mergedContent` and `mergedTags`, the engine calls the
store's update (src/server/routers.ts:385-411).  When the update reports
failure (`spawnResult.status !== 0`, e.g. the page was deleted concurrently)
it does not rethrow: it calls `saveToNotion` with the canonical title derived
from `params.date`'s JST components, the merged content, `params.tags` and
`params.date`. -/

/-- What the Merge Engine ends up doing to the store. -/
inductive MergeOutcome
  | updated (pageId : String)
  | created (title : String) (content : String) (tags : List String) (y m d : Nat)
deriving DecidableEq, Repr

/-- The update-or-create decision of `mergeWithExistingDiary`
(src/server/routers.ts:385-422).  `updateSucceeds` is the store's reported
status for the update call; `(y, m, d)` are the JST components of
`params.date`. -/
def mergeWithExistingDiary_outcome (updateSucceeds : Bool) (existingPageId : String)
    (mergedContent : String) (tags : List String) (y m d : Nat) : MergeOutcome :=
  if updateSucceeds then
    .updated existingPageId
  else
    .created (canonicalTitle y m d) mergedContent tags y m d

/-- C4: when the store's update call fails, the Merge Engine does not
propagate the error; it creates a brand-new page carrying the canonical title
for the date, the date itself, and the merged content. -/
theorem mergeWithExistingDiary_fallback (updateSucceeds : Bool) (pid mergedContent : String)
    (tags : List String) (y m d : Nat) (h : updateSucceeds = false) :
    mergeWithExistingDiary_outcome updateSucceeds pid mergedContent tags y m d =
      .created (canonicalTitle y m d) mergedContent tags y m d := by
  rw [h]; rfl

/-- Witness: a failed update at a concrete input creates the canonical page. -/
theorem mergeWithExistingDiary_fallback_witness :
    mergeWithExistingDiary_outcome false "p-123" "• merged" ["仕事"] 2026 1 22 =
      .created (canonicalTitle 2026 1 22) "• merged" ["仕事"] 2026 1 22 :=
  mergeWithExistingDiary_fallback false "p-123" "• merged" ["仕事"] 2026 1 22 rfl

/- ## Diary Locator (`findExistingDiaryByDate`)

`findExistingDiaryByDate` (src/server/routers.ts:221-323) runs a substring
search against the store as a pre-filter, then selects
`searchResults.results.find(r => r.title && r.title === `日記 ${dateStr}`)`
(lines 270-278); when no result's title exactly equals the canonical title it
returns `null`.  `(y, m, d)` are the JST components of the resolved date. -/

/-- A search result returned by the store's pre-filter query. -/
structure SearchResult where
  title : String
  id : String
  url : String
deriving DecidableEq, Repr

/-- The exact-match selection step of the Locator
(src/server/routers.ts:270-278).  `r.title` truthiness is emptiness of the
title string. -/
def findExistingDiaryByDate_exactMatch (results : List SearchResult) (y m d : Nat) :
    Option SearchResult :=
  results.find? fun r => (!(r.title == "")) && (r.title == canonicalTitle y m d)

/-- C9: the Locator returns a page only when its title exactly equals the
canonical title for the date — a result whose title merely contains the
canonical string is rejected — and when no exact match exists among the
pre-filtered results it returns none. -/
theorem findExistingDiaryByDate_exact (results : List SearchResult) (y m d : Nat) :
    (∀ r, findExistingDiaryByDate_exactMatch results y m d = some r →
      r.title = canonicalTitle y m d) ∧
    ((∀ r ∈ results, r.title ≠ canonicalTitle y m d) →
      findExistingDiaryByDate_exactMatch results y m d = none) := by
  constructor
  · intro r hr
    have := List.find?_some hr
    simp only [Bool.and_eq_true, beq_iff_eq] at this
    exact this.2
  · intro h
    rw [findExistingDiaryByDate_exactMatch, List.find?_eq_none]
    intro r hr
    simp only [Bool.and_eq_true, beq_iff_eq, not_and]
    intro _
    exact h r hr

/-- Witness: searching for 日記 2026/1/2 among results containing only the
page 日記 2026/1/20 (a superstring title) returns none, and a genuine exact
match is returned with exactly the canonical title. -/
theorem findExistingDiaryByDate_exact_witness :
    ((∀ r ∈ [SearchResult.mk "日記 2026/1/20" "p20" "u20"], r.title ≠ canonicalTitle 2026 1 2) ∧
      findExistingDiaryByDate_exactMatch [SearchResult.mk "日記 2026/1/20" "p20" "u20"] 2026 1 2
        = none) ∧
    (SearchResult.mk "日記 2026/1/20" "p20" "u20").title = canonicalTitle 2026 1 20 :=
  ⟨⟨by decide,
    (findExistingDiaryByDate_exact [SearchResult.mk "日記 2026/1/20" "p20" "u20"] 2026 1 2).2
      (by decide)⟩,
   (findExistingDiaryByDate_exact [SearchResult.mk "日記 2026/1/20" "p20" "u20"] 2026 1 20).1
      (SearchResult.mk "日記 2026/1/20" "p20" "u20") (by decide)⟩

/- ## `saveToNotion` date validation

Both `saveToNotion` implementations (src/server/notion.ts:51-55 and
src/server/routers.ts:653-657) guard the incoming date:
`if (!params.date || isNaN(params.date.getTime())) { params.date = new Date(); }`
and then proceed to create the page. -/

/-- A JS `Date` value: `valid = false` models an Invalid Date (`NaN`
timestamp). -/
structure JsDate where
  valid : Bool
  ms : Int
deriving DecidableEq, Repr

/-- The date actually placed in the store payload by `saveToNotion`
(src/server/notion.ts:51-55): a missing (`undefined`/`null`) or invalid date
is silently replaced by the current date `now`. -/
def saveToNotion_effectiveDate (date : Option JsDate) (now : JsDate) : JsDate :=
  match date with
  | none => now
  | some x => if x.valid then x else now

/-- C10: a missing or invalid date never reaches the store payload — it is
replaced by the current date and the save proceeds; a valid date passes
through unchanged. -/
theorem saveToNotion_date_guard (date : Option JsDate) (now : JsDate)
    (hnow : now.valid = true) :
    (saveToNotion_effectiveDate date now).valid = true ∧
    (date = none → saveToNotion_effectiveDate date now = now) ∧
    (∀ x, date = some x → x.valid = false → saveToNotion_effectiveDate date now = now) ∧
    (∀ x, date = some x → x.valid = true → saveToNotion_effectiveDate date now = x) := by
  refine ⟨?_, ?_, ?_, ?_⟩
  · cases date with
    | none => exact hnow
    | some x =>
      rcases hx : x.valid with hv | hv <;> simp [saveToNotion_effectiveDate, hx, hnow]
  · rintro rfl; rfl
  · rintro x rfl hx; simp [saveToNotion_effectiveDate, hx]
  · rintro x rfl hx; simp [saveToNotion_effectiveDate, hx]

/-- Witness: an invalid date (NaN timestamp) at a concrete call is replaced
by the current date, which is what reaches the payload. -/
theorem saveToNotion_date_guard_witness :
    (JsDate.mk true 1769126400000).valid = true ∧
    saveToNotion_effectiveDate (some (JsDate.mk false 0)) (JsDate.mk true 1769126400000) =
      JsDate.mk true 1769126400000 :=
  ⟨rfl,
   (saveToNotion_date_guard (some (JsDate.mk false 0)) (JsDate.mk true 1769126400000) rfl).2.2.1
     (JsDate.mk false 0) rfl rfl⟩

/- ## Deduplicator (`notion.mergeDuplicates`)

The `notion.mergeDuplicates` mutation (final revision of the router) fetches
every diary entry, groups them by exact title in a `Map` (insertion order),
and for each group of size > 1 sorts by date descending
(`b.date.localeCompare(a.date)`, a stable sort), keeps the first entry as the
master, joins the non-blank contents with a blank line, unions the tags,
writes content/tags to the master and archives the other entries, counting
merged titles and archived pages.  Groups of size 1 are untouched.

The embedding is a pure function from the fetched entry list to
(remaining non-archived entries, mergedCount, deletedCount).  Date strings
are compared with the codepoint order, which coincides with `localeCompare`
on the `YYYY-MM-DD` strings the store returns. -/

/-- A diary entry as returned by `queryDiaryEntries`
(src/server/notion.ts:213-349). -/
structure Entry where
  pageId : String
  pageUrl : String
  title : String
  content : String
  tags : List String
  date : String
deriving DecidableEq, Repr

/-- One step of building the title `Map`: append `e` to its title's group,
or add a new group at the end (JS `Map` insertion order). -/
def insertGroup (gs : List (String × List Entry)) (e : Entry) : List (String × List Entry) :=
  match gs with
  | [] => [(e.title, [e])]
  | (t, l) :: rest =>
    if t = e.title then (t, l ++ [e]) :: rest else (t, l) :: insertGroup rest e

/-- `groupedByTitle`: the title `Map` of the Deduplicator, as an ordered
association list. -/
def groupByTitle (es : List Entry) : List (String × List Entry) :=
  es.foldl insertGroup []

/-- Codepoint-lexicographic comparison of strings, as character lists.
`localeCompare` coincides with it on the store's `YYYY-MM-DD` date strings. -/
def charListLt : List Char → List Char → Bool
  | [], [] => false
  | [], _ :: _ => true
  | _ :: _, [] => false
  | a :: as, b :: bs => if a < b then true else if b < a then false else charListLt as bs

def strLt (a b : String) : Bool := charListLt a.data b.data

/-- Stable insertion for the descending-by-date sort. -/
def insertByDate (x : Entry) : List Entry → List Entry
  | [] => [x]
  | y :: ys => if strLt x.date y.date then y :: insertByDate x ys else x :: y :: ys

/-- `entries.sort((a, b) => b.date.localeCompare(a.date))`: stable sort,
newest date first. -/
def sortByDateDesc : List Entry → List Entry
  | [] => []
  | x :: xs => insertByDate x (sortByDateDesc xs)

/-- JS `Array.prototype.join('\n\n')`. -/
def joinBlank : List String → String
  | [] => ""
  | [c] => c
  | c :: d :: rest => c ++ "\n\n" ++ joinBlank (d :: rest)

/-- JS `String.prototype.trim` over a character list. -/
def trimChars (cs : List Char) : List Char :=
  ((cs.dropWhile isSpaceCh).reverse.dropWhile isSpaceCh).reverse

/-- The Deduplicator's blank-body filter `c.trim().length > 0`. -/
def isNonBlank (c : String) : Bool := decide (0 < (trimChars c.data).length)

/-- The master entry after the merge write: content = non-blank contents of
the sorted group joined by a blank line, tags = insertion-order union over
the sorted group. -/
def mergedMaster (master : Entry) (dups : List Entry) : Entry :=
  { master with
    content := joinBlank ((master.content :: dups.map Entry.content).filter isNonBlank),
    tags := dedupStr ((master :: dups).map Entry.tags).flatten }

/-- Process one title group: groups of size ≤ 1 are untouched; otherwise the
sorted group's head becomes the master, the others are archived.  Returns
(remaining entries of the group, merged titles, archived pages). -/
def processGroup (l : List Entry) : List Entry × Nat × Nat :=
  if l.length ≤ 1 then (l, 0, 0)
  else
    match sortByDateDesc l with
    | [] => ([], 0, 0)
    | master :: dups => ([mergedMaster master dups], 1, dups.length)

/-- `notion.mergeDuplicates`, assuming every store call succeeds: the
remaining (non-archived) pages and the returned
`{mergedCount, deletedCount}`. -/
def mergeDuplicates (es : List Entry) : List Entry × Nat × Nat :=
  let gs := groupByTitle es
  ((gs.map fun g => (processGroup g.2).1).flatten,
   (gs.map fun g => (processGroup g.2).2.1).sum,
   (gs.map fun g => (processGroup g.2).2.2).sum)

/- ### Structure of the title grouping -/

/-- Look up a title's group in the ordered association list (default `[]`). -/
def lookupGroup (gs : List (String × List Entry)) (t : String) : List Entry :=
  match gs with
  | [] => []
  | (t', l) :: rest => if t' = t then l else lookupGroup rest t

theorem lookupGroup_insertGroup (gs : List (String × List Entry)) (e : Entry) (t : String) :
    lookupGroup (insertGroup gs e) t =
      if e.title = t then lookupGroup gs t ++ [e] else lookupGroup gs t := by
  induction gs with
  | nil => by_cases h : e.title = t <;> simp [insertGroup, lookupGroup, h]
  | cons p rest ih =>
    obtain ⟨s, l⟩ := p
    by_cases h1 : s = e.title
    · by_cases h2 : s = t
      · have het : e.title = t := h1 ▸ h2
        simp [insertGroup, lookupGroup, h1, h2, het]
      · have het : ¬ e.title = t := fun hh => h2 (h1.trans hh)
        simp [insertGroup, lookupGroup, h1, h2, het]
    · by_cases h2 : s = t
      · subst h2
        have het : ¬ e.title = s := fun hh => h1 hh.symm
        simp [insertGroup, lookupGroup, h1, het]
      · simp [insertGroup, lookupGroup, h1, h2, ih]

theorem lookupGroup_foldl (es : List Entry) :
    ∀ (gs : List (String × List Entry)) (t : String),
      lookupGroup (es.foldl insertGroup gs) t =
        lookupGroup gs t ++ es.filter (fun e => e.title == t) := by
  induction es with
  | nil => intro gs t; simp
  | cons e es ih =>
    intro gs t
    rw [List.foldl_cons, ih, lookupGroup_insertGroup]
    by_cases h : e.title = t
    · simp [h, List.filter_cons]
    · simp [h, List.filter_cons]

theorem lookupGroup_groupByTitle (es : List Entry) (t : String) :
    lookupGroup (groupByTitle es) t = es.filter (fun e => e.title == t) := by
  rw [groupByTitle, lookupGroup_foldl]
  simp [lookupGroup]

/-- Well-formedness of the grouping: distinct keys, nonempty groups, members
titled by their key. -/
def GroupsWF (gs : List (String × List Entry)) : Prop :=
  (gs.map Prod.fst).Nodup ∧ ∀ p ∈ gs, p.2 ≠ [] ∧ ∀ e ∈ p.2, e.title = p.1

theorem insertGroup_keys (gs : List (String × List Entry)) (e : Entry) :
    (insertGroup gs e).map Prod.fst =
      if e.title ∈ gs.map Prod.fst then gs.map Prod.fst
      else gs.map Prod.fst ++ [e.title] := by
  induction gs with
  | nil => simp [insertGroup]
  | cons p rest ih =>
    obtain ⟨s, l⟩ := p
    by_cases h1 : s = e.title
    · subst h1
      simp [insertGroup]
    · have : ¬ e.title = s := fun hh => h1 hh.symm
      by_cases h2 : e.title ∈ rest.map Prod.fst <;>
        simp [insertGroup, h1, this, h2, ih]

theorem insertGroup_members (gs : List (String × List Entry)) (e : Entry)
    (hm : ∀ p ∈ gs, p.2 ≠ [] ∧ ∀ x ∈ p.2, x.title = p.1) :
    ∀ p ∈ insertGroup gs e, p.2 ≠ [] ∧ ∀ x ∈ p.2, x.title = p.1 := by
  induction gs with
  | nil =>
    intro p hp
    simp [insertGroup] at hp
    subst hp
    simp
  | cons q rest ih =>
    obtain ⟨s, l⟩ := q
    intro p hp
    by_cases h1 : s = e.title
    · subst h1
      simp only [insertGroup, if_pos rfl] at hp
      rcases List.mem_cons.mp hp with hp | hp
      · subst hp
        have hq := hm (e.title, l) (List.mem_cons_self _ _)
        refine ⟨by simp, ?_⟩
        intro x hx
        rcases List.mem_append.mp hx with hx | hx
        · exact hq.2 x hx
        · simp at hx
          subst hx
          rfl
      · exact hm p (List.mem_cons_of_mem _ hp)
    · simp only [insertGroup, if_neg h1] at hp
      rcases List.mem_cons.mp hp with hp | hp
      · subst hp
        exact hm (s, l) (List.mem_cons_self _ _)
      · exact ih (fun q hq => hm q (List.mem_cons_of_mem _ hq)) p hp

theorem insertGroup_WF (gs : List (String × List Entry)) (e : Entry) (h : GroupsWF gs) :
    GroupsWF (insertGroup gs e) := by
  obtain ⟨hk, hm⟩ := h
  refine ⟨?_, insertGroup_members gs e hm⟩
  rw [insertGroup_keys]
  by_cases h2 : e.title ∈ gs.map Prod.fst
  · rw [if_pos h2]
    exact hk
  · rw [if_neg h2, List.nodup_append]
    refine ⟨hk, List.nodup_singleton _, ?_⟩
    intro x hx hx2
    simp at hx2
    subst hx2
    exact h2 hx

theorem groupByTitle_WF (es : List Entry) : GroupsWF (groupByTitle es) := by
  rw [groupByTitle]
  have : ∀ gs, GroupsWF gs → GroupsWF (es.foldl insertGroup gs) := by
    induction es with
    | nil => intro gs h; exact h
    | cons e es ih =>
      intro gs h
      exact ih (insertGroup gs e) (insertGroup_WF gs e h)
  exact this [] ⟨List.nodup_nil, by simp⟩

/- ### The sort is a permutation -/

theorem insertByDate_perm (x : Entry) (l : List Entry) :
    List.Perm (insertByDate x l) (x :: l) := by
  induction l with
  | nil => rfl
  | cons y ys ih =>
    by_cases h : strLt x.date y.date
    · simp only [insertByDate, if_pos h]
      exact (ih.cons y).trans (List.Perm.swap x y ys)
    · simp only [insertByDate, if_neg h]
      exact List.Perm.refl _

theorem sortByDateDesc_perm (l : List Entry) : List.Perm (sortByDateDesc l) l := by
  induction l with
  | nil => rfl
  | cons x xs ih =>
    exact (insertByDate_perm x (sortByDateDesc xs)).trans (ih.cons x)

theorem mem_sortByDateDesc (l : List Entry) (x : Entry) :
    x ∈ sortByDateDesc l ↔ x ∈ l :=
  (sortByDateDesc_perm l).mem_iff

theorem length_sortByDateDesc (l : List Entry) :
    (sortByDateDesc l).length = l.length :=
  (sortByDateDesc_perm l).length_eq

/- ### String concatenation facts and the join -/

theorem str_append_assoc (a b c : String) : a ++ b ++ c = a ++ (b ++ c) := by
  obtain ⟨la⟩ := a
  obtain ⟨lb⟩ := b
  obtain ⟨lc⟩ := c
  show String.mk (la ++ lb ++ lc) = String.mk (la ++ (lb ++ lc))
  rw [List.append_assoc]

theorem str_empty_append (s : String) : "" ++ s = s := by
  obtain ⟨ls⟩ := s
  rfl

theorem str_append_empty (s : String) : s ++ "" = s := by
  obtain ⟨ls⟩ := s
  show String.mk (ls ++ []) = String.mk ls
  rw [List.append_nil]

/-- Every element of the joined list occurs verbatim inside the join. -/
theorem joinBlank_substring (L : List String) (c : String) (hc : c ∈ L) :
    ∃ u v, joinBlank L = u ++ c ++ v := by
  induction L with
  | nil => cases hc
  | cons a rest ih =>
    cases rest with
    | nil =>
      simp at hc
      subst hc
      exact ⟨"", "", by rw [str_empty_append, str_append_empty]; rfl⟩
    | cons b rest2 =>
      rcases List.mem_cons.mp hc with hc | hc
      · subst hc
        refine ⟨"", "\n\n" ++ joinBlank (b :: rest2), ?_⟩
        rw [str_empty_append]
        show c ++ "\n\n" ++ joinBlank (b :: rest2) = c ++ ("\n\n" ++ joinBlank (b :: rest2))
        rw [str_append_assoc]
      · obtain ⟨u, v, huv⟩ := ih hc
        refine ⟨a ++ "\n\n" ++ u, v, ?_⟩
        show a ++ "\n\n" ++ joinBlank (b :: rest2) = a ++ "\n\n" ++ u ++ c ++ v
        rw [huv, str_append_assoc, str_append_assoc, str_append_assoc, str_append_assoc]
        exact (str_append_assoc a "\n\n" (u ++ (c ++ v))).symm

theorem mergedMaster_title (master : Entry) (dups : List Entry) :
    (mergedMaster master dups).title = master.title := rfl

theorem processGroup_spec (l : List Entry) (t : String) (hne : l ≠ [])
    (ht : ∀ e ∈ l, e.title = t) :
    ∃ m, (processGroup l).1 = [m] ∧ m.title = t ∧
      (∀ e ∈ l, isNonBlank e.content = true → ∃ u v, m.content = u ++ e.content ++ v) ∧
      (∀ tg, tg ∈ m.tags ↔ ∃ e, e ∈ l ∧ tg ∈ e.tags) := by
  by_cases hlen : l.length ≤ 1
  · obtain ⟨e, rfl⟩ : ∃ e, l = [e] := by
      cases l with
      | nil => exact absurd rfl hne
      | cons a as =>
        cases as with
        | nil => exact ⟨a, rfl⟩
        | cons b bs => simp at hlen
    refine ⟨e, by simp [processGroup], ht e (by simp), ?_, ?_⟩
    · intro e' he' hb
      simp at he'
      subst he'
      exact ⟨"", "", by rw [str_empty_append, str_append_empty]⟩
    · intro tg
      simp
  · have h2 : 2 ≤ l.length := by omega
    obtain ⟨master, dups, heq⟩ : ∃ a b, sortByDateDesc l = a :: b := by
      cases h : sortByDateDesc l with
      | nil =>
        have := length_sortByDateDesc l
        rw [h] at this
        simp at this
        omega
      | cons a b => exact ⟨a, b, rfl⟩
    have hout : (processGroup l).1 = [mergedMaster master dups] := by
      simp [processGroup, hlen, heq]
    refine ⟨mergedMaster master dups, hout, ?_, ?_, ?_⟩
    · rw [mergedMaster_title]
      exact ht master ((mem_sortByDateDesc l master).mp (heq ▸ List.mem_cons_self _ _))
    · intro e he hb
      have hes : e ∈ master :: dups := heq ▸ (mem_sortByDateDesc l e).mpr he
      have hcs : e.content ∈ master.content :: dups.map Entry.content := by
        rcases List.mem_cons.mp hes with h | h
        · subst h; exact List.mem_cons_self _ _
        · exact List.mem_cons_of_mem _ (List.mem_map_of_mem Entry.content h)
      have hcf : e.content ∈ (master.content :: dups.map Entry.content).filter isNonBlank :=
        List.mem_filter.mpr ⟨hcs, hb⟩
      exact joinBlank_substring _ _ hcf
    · intro tg
      show tg ∈ dedupStr ((master :: dups).map Entry.tags).flatten ↔ _
      rw [mem_dedupStr, List.mem_flatten]
      constructor
      · rintro ⟨tl, htl, htg⟩
        obtain ⟨e, he, rfl⟩ := List.mem_map.mp htl
        exact ⟨e, (mem_sortByDateDesc l e).mp (heq ▸ he), htg⟩
      · rintro ⟨e, he, htg⟩
        exact ⟨e.tags, List.mem_map_of_mem Entry.tags (heq ▸ (mem_sortByDateDesc l e).mpr he), htg⟩

theorem processGroup_titles (l : List Entry) (t : String) (ht : ∀ e ∈ l, e.title = t) :
    ∀ x ∈ (processGroup l).1, x.title = t := by
  by_cases hlen : l.length ≤ 1
  · intro x hx
    simp only [processGroup, if_pos hlen] at hx
    exact ht x hx
  · cases heq : sortByDateDesc l with
    | nil =>
      intro x hx
      simp [processGroup, hlen, heq] at hx
    | cons master dups =>
      intro x hx
      simp only [processGroup, if_neg hlen, heq] at hx
      simp at hx
      subst hx
      rw [mergedMaster_title]
      exact ht master ((mem_sortByDateDesc l master).mp (heq ▸ List.mem_cons_self _ _))

theorem mem_flatten_outs (gs : List (String × List Entry)) (x : Entry)
    (hx : x ∈ (gs.map fun g => (processGroup g.2).1).flatten) :
    ∃ g ∈ gs, x ∈ (processGroup g.2).1 := by
  rw [List.mem_flatten] at hx
  obtain ⟨out, hout, hxo⟩ := hx
  obtain ⟨g, hg, rfl⟩ := List.mem_map.mp hout
  exact ⟨g, hg, hxo⟩

theorem dedupe_filter (gs : List (String × List Entry)) (hwf : GroupsWF gs) (t : String) :
    ((gs.map fun g => (processGroup g.2).1).flatten).filter (fun x => x.title == t)
      = (processGroup (lookupGroup gs t)).1 := by
  induction gs with
  | nil => simp [lookupGroup, processGroup]
  | cons p rest ih =>
    obtain ⟨s, l⟩ := p
    obtain ⟨hk, hm⟩ := hwf
    have hkrest : (rest.map Prod.fst).Nodup := (List.nodup_cons.mp hk).2
    have hsrest : s ∉ rest.map Prod.fst := (List.nodup_cons.mp hk).1
    have hmem : ∀ e ∈ l, e.title = s := (hm (s, l) (List.mem_cons_self _ _)).2
    have ihr := ih ⟨hkrest, fun q hq => hm q (List.mem_cons_of_mem _ hq)⟩
    simp only [List.map_cons, List.flatten_cons, List.filter_append]
    by_cases h : s = t
    · subst h
      have h1 : (processGroup l).1.filter (fun x => x.title == s) = (processGroup l).1 := by
        rw [List.filter_eq_self]
        intro x hx
        simp [processGroup_titles l s hmem x hx]
      have h2 : ((rest.map fun g => (processGroup g.2).1).flatten).filter
          (fun x => x.title == s) = [] := by
        rw [List.filter_eq_nil_iff]
        intro x hx
        obtain ⟨g, hg, hxg⟩ := mem_flatten_outs rest x hx
        have hxt : x.title = g.1 :=
          processGroup_titles g.2 g.1 (hm g (List.mem_cons_of_mem _ hg)).2 x hxg
        have : g.1 ∈ rest.map Prod.fst := List.mem_map_of_mem Prod.fst hg
        simp [hxt]
        intro hgs
        exact hsrest (hgs ▸ this)
      rw [h1, h2, List.append_nil]
      simp [lookupGroup]
    · have h1 : (processGroup l).1.filter (fun x => x.title == t) = [] := by
        rw [List.filter_eq_nil_iff]
        intro x hx
        have hxt : x.title = s := processGroup_titles l s hmem x hx
        simp [hxt, h]
      rw [h1, List.nil_append, ihr]
      simp [lookupGroup, h]

theorem mergeDuplicates_fst (es : List Entry) :
    (mergeDuplicates es).1 = ((groupByTitle es).map fun g => (processGroup g.2).1).flatten := rfl

/-- C1: after a dedupe run, each title present in the input has exactly one
remaining page; for a duplicated title, every non-blank original content
occurs verbatim inside the survivor's content (the blank-line join), and the
survivor's tag set is exactly the union of the group's original tag sets. -/
theorem mergeDuplicates_per_title (es : List Entry) (t : String)
    (ht : t ∈ es.map Entry.title) :
    ∃ m, (mergeDuplicates es).1.filter (fun x => x.title == t) = [m] ∧
      m.title = t ∧
      (∀ e ∈ es, e.title = t → isNonBlank e.content = true →
        ∃ u v, m.content = u ++ e.content ++ v) ∧
      (∀ tg, tg ∈ m.tags ↔ ∃ e, e ∈ es ∧ e.title = t ∧ tg ∈ e.tags) := by
  have hfil := dedupe_filter (groupByTitle es) (groupByTitle_WF es) t
  have hgrp := lookupGroup_groupByTitle es t
  have hne : es.filter (fun e => e.title == t) ≠ [] := by
    obtain ⟨e, he, hte⟩ := List.mem_map.mp ht
    intro h0
    have hmem : e ∈ es.filter (fun e => e.title == t) :=
      List.mem_filter.mpr ⟨he, by simp [hte]⟩
    rw [h0] at hmem
    cases hmem
  have htl : ∀ e ∈ es.filter (fun e => e.title == t), e.title = t := by
    intro e he
    have := (List.mem_filter.mp he).2
    simpa using this
  obtain ⟨m, hm1, hm2, hm3, hm4⟩ :=
    processGroup_spec (es.filter (fun e => e.title == t)) t hne htl
  refine ⟨m, ?_, hm2, ?_, ?_⟩
  · rw [mergeDuplicates_fst, hfil, hgrp, hm1]
  · intro e he hte2 hb
    exact hm3 e (List.mem_filter.mpr ⟨he, by simp [hte2]⟩) hb
  · intro tg
    rw [hm4 tg]
    constructor
    · rintro ⟨e, he, htg⟩
      obtain ⟨he1, he2⟩ := List.mem_filter.mp he
      exact ⟨e, he1, by simpa using he2, htg⟩
    · rintro ⟨e, he, hte, htg⟩
      exact ⟨e, List.mem_filter.mpr ⟨he, by simp [hte]⟩, htg⟩

/-- Entries of the dedupe witness scenario: two pages sharing one canonical
title plus an unrelated page. -/
def exEntryA : Entry := ⟨"p1", "u1", "日記 2026/1/22", "• morning", ["仕事"], "2026-01-22"⟩

def exEntryB : Entry := ⟨"p2", "u2", "日記 2026/1/22", "• evening", ["健康"], "2026-01-22"⟩

def exEntryC : Entry := ⟨"p3", "u3", "日記 2026/1/21", "• walk", ["趣味"], "2026-01-21"⟩

/-- Witness for the per-title invariant on a concrete duplicated collection. -/
theorem mergeDuplicates_per_title_witness :
    ("日記 2026/1/22" ∈ [exEntryA, exEntryB, exEntryC].map Entry.title) ∧
    (∃ m, (mergeDuplicates [exEntryA, exEntryB, exEntryC]).1.filter
        (fun x => x.title == "日記 2026/1/22") = [m] ∧
      m.title = "日記 2026/1/22" ∧
      (∀ e ∈ [exEntryA, exEntryB, exEntryC], e.title = "日記 2026/1/22" →
        isNonBlank e.content = true → ∃ u v, m.content = u ++ e.content ++ v) ∧
      (∀ tg, tg ∈ m.tags ↔
        ∃ e, e ∈ [exEntryA, exEntryB, exEntryC] ∧ e.title = "日記 2026/1/22" ∧ tg ∈ e.tags)) :=
  ⟨by decide, mergeDuplicates_per_title [exEntryA, exEntryB, exEntryC] "日記 2026/1/22" (by decide)⟩

/- ### Idempotence and non-growth of the Deduplicator -/

theorem processGroup_out_len (l : List Entry) : (processGroup l).1.length ≤ 1 := by
  by_cases hlen : l.length ≤ 1
  · simp [processGroup, hlen]
  · cases heq : sortByDateDesc l with
    | nil => simp [processGroup, hlen, heq]
    | cons master dups => simp [processGroup, hlen, heq]

theorem insertGroup_length (gs : List (String × List Entry)) (e : Entry) :
    (insertGroup gs e).length ≤ gs.length + 1 := by
  induction gs with
  | nil => simp [insertGroup]
  | cons p rest ih =>
    obtain ⟨s, l⟩ := p
    by_cases h : s = e.title <;> simp [insertGroup, h]
    omega

theorem foldl_insertGroup_length (es : List Entry) :
    ∀ gs : List (String × List Entry),
      (es.foldl insertGroup gs).length ≤ gs.length + es.length := by
  induction es with
  | nil => intro gs; simp
  | cons e es ih =>
    intro gs
    calc ((e :: es).foldl insertGroup gs).length
        = (es.foldl insertGroup (insertGroup gs e)).length := by rw [List.foldl_cons]
      _ ≤ (insertGroup gs e).length + es.length := ih (insertGroup gs e)
      _ ≤ gs.length + 1 + es.length := by
          have := insertGroup_length gs e
          omega
      _ = gs.length + (e :: es).length := by simp; omega

theorem flatten_outs_length (gs : List (String × List Entry)) :
    ((gs.map fun g => (processGroup g.2).1).flatten).length ≤ gs.length := by
  induction gs with
  | nil => simp
  | cons p rest ih =>
    simp only [List.map_cons, List.flatten_cons, List.length_append]
    have := processGroup_out_len p.2
    simp only [List.length_cons]
    omega

theorem mergeDuplicates_length (es : List Entry) :
    (mergeDuplicates es).1.length ≤ es.length := by
  rw [mergeDuplicates_fst]
  calc ((List.map (fun g => (processGroup g.2).1) (groupByTitle es)).flatten).length
      ≤ (groupByTitle es).length := flatten_outs_length (groupByTitle es)
    _ ≤ es.length := by
        have := foldl_insertGroup_length es ([] : List (String × List Entry))
        rw [groupByTitle]
        simpa using this

theorem out_titles_eq_keys (gs : List (String × List Entry)) (hwf : GroupsWF gs) :
    ((gs.map fun g => (processGroup g.2).1).flatten).map Entry.title = gs.map Prod.fst := by
  induction gs with
  | nil => simp
  | cons p rest ih =>
    obtain ⟨s, l⟩ := p
    obtain ⟨hk, hm⟩ := hwf
    have hps := hm (s, l) (List.mem_cons_self _ _)
    obtain ⟨m, hm1, hm2, _, _⟩ := processGroup_spec l s hps.1 hps.2
    simp only [List.map_cons, List.flatten_cons, List.map_append]
    rw [hm1]
    have ihr := ih ⟨(List.nodup_cons.mp hk).2, fun q hq => hm q (List.mem_cons_of_mem _ hq)⟩
    rw [ihr]
    simp [hm2]

theorem mergeDuplicates_titles_nodup (es : List Entry) :
    ((mergeDuplicates es).1.map Entry.title).Nodup := by
  rw [mergeDuplicates_fst, out_titles_eq_keys (groupByTitle es) (groupByTitle_WF es)]
  exact (groupByTitle_WF es).1

theorem insertGroup_notmem (gs : List (String × List Entry)) (e : Entry)
    (h : e.title ∉ gs.map Prod.fst) : insertGroup gs e = gs ++ [(e.title, [e])] := by
  induction gs with
  | nil => rfl
  | cons p rest ih =>
    obtain ⟨s, l⟩ := p
    simp only [List.map_cons, List.mem_cons] at h
    push_neg at h
    have hs : ¬ s = e.title := fun hh => h.1 hh.symm
    simp [insertGroup, hs, ih h.2]

theorem foldl_insertGroup_nodup (l : List Entry) :
    ∀ gs : List (String × List Entry), ((l.map Entry.title).Nodup) →
      (∀ e ∈ l, e.title ∉ gs.map Prod.fst) →
      l.foldl insertGroup gs = gs ++ l.map (fun e => (e.title, [e])) := by
  induction l with
  | nil => intro gs _ _; simp
  | cons e l ih =>
    intro gs hnd hout
    rw [List.foldl_cons, insertGroup_notmem gs e (hout e (List.mem_cons_self _ _))]
    rw [ih (gs ++ [(e.title, [e])]) (List.nodup_cons.mp (by simpa using hnd)).2 ?_]
    · simp
    · intro x hx
      simp only [List.map_append, List.mem_append]
      push_neg
      refine ⟨hout x (List.mem_cons_of_mem _ hx), ?_⟩
      simp only [List.map_cons, List.map_nil, List.mem_singleton]
      intro hxe
      have hnd2 := List.nodup_cons.mp (by simpa using hnd : (e.title :: l.map Entry.title).Nodup)
      exact hnd2.1 (hxe ▸ List.mem_map_of_mem Entry.title hx)

theorem groupByTitle_nodup (es : List Entry) (h : (es.map Entry.title).Nodup) :
    groupByTitle es = es.map (fun e => (e.title, [e])) := by
  rw [groupByTitle, foldl_insertGroup_nodup es [] h (by simp)]
  simp

theorem processGroup_single (e : Entry) : processGroup [e] = ([e], 0, 0) := rfl

theorem flatten_singleton_outs (l : List Entry) :
    ((l.map fun e => (e.title, [e])).map fun g => (processGroup g.2).1).flatten = l := by
  induction l with
  | nil => rfl
  | cons e l ih =>
    simp only [List.map_cons, List.flatten_cons]
    rw [show (processGroup ((e.title, [e]).2)).1 = [e] from rfl, ih]
    rfl

theorem sum_merged_zero (l : List Entry) :
    ((l.map fun e => (e.title, [e])).map fun g => (processGroup g.2).2.1).sum = 0 := by
  induction l with
  | nil => rfl
  | cons e l ih =>
    simp only [List.map_cons, List.sum_cons]
    rw [show (processGroup ((e.title, [e]).2)).2.1 = 0 from rfl, ih]

theorem sum_deleted_zero (l : List Entry) :
    ((l.map fun e => (e.title, [e])).map fun g => (processGroup g.2).2.2).sum = 0 := by
  induction l with
  | nil => rfl
  | cons e l ih =>
    simp only [List.map_cons, List.sum_cons]
    rw [show (processGroup ((e.title, [e]).2)).2.2 = 0 from rfl, ih]

theorem mergeDuplicates_nodup_fixed (l : List Entry) (h : (l.map Entry.title).Nodup) :
    mergeDuplicates l = (l, 0, 0) := by
  show (((groupByTitle l).map fun g => (processGroup g.2).1).flatten,
        ((groupByTitle l).map fun g => (processGroup g.2).2.1).sum,
        ((groupByTitle l).map fun g => (processGroup g.2).2.2).sum) = (l, 0, 0)
  rw [groupByTitle_nodup l h, flatten_singleton_outs, sum_merged_zero, sum_deleted_zero]

/-- C6: dedupe is idempotent — immediately re-running it on the surviving
pages changes nothing and reports `mergedCount = 0, deletedCount = 0` — and
no run increases the total page count. -/
theorem mergeDuplicates_idempotent (es : List Entry) :
    mergeDuplicates ((mergeDuplicates es).1) = ((mergeDuplicates es).1, 0, 0) ∧
    (mergeDuplicates es).1.length ≤ es.length :=
  ⟨mergeDuplicates_nodup_fixed _ (mergeDuplicates_titles_nodup es),
   mergeDuplicates_length es⟩

/- ### Store failures during the dedupe batch

The per-group body of `notion.mergeDuplicates` awaits `updatePage` (and then
`deletePage`) with no surrounding `try`/`catch`; a rejection aborts the whole
mutation.  `mergeDuplicatesE` reproduces the loop with a fallible update:
`updateOk pid` says whether updating page `pid` succeeds. -/

def isErr {ε α : Type} : Except ε α → Bool
  | .error _ => true
  | .ok _ => false

/-- Process one group with a fallible master update. -/
def processGroupE (updateOk : String → Bool) (l : List Entry) :
    Except String (List Entry × Nat × Nat) :=
  if l.length ≤ 1 then .ok (l, 0, 0)
  else
    match sortByDateDesc l with
    | [] => .ok ([], 0, 0)
    | master :: dups =>
      if updateOk master.pageId then .ok ([mergedMaster master dups], 1, dups.length)
      else .error "Failed to update page"

/-- The dedupe for-loop over the groups: an uncaught store failure stops the
iteration and rejects the whole mutation. -/
def dedupeFold (updateOk : String → Bool) :
    List (String × List Entry) → List Entry × Nat × Nat →
      Except String (List Entry × Nat × Nat)
  | [], acc => .ok acc
  | g :: gs, acc =>
    match processGroupE updateOk g.2 with
    | .error e => .error e
    | .ok r => dedupeFold updateOk gs (acc.1 ++ r.1, acc.2.1 + r.2.1, acc.2.2 + r.2.2)

/-- `notion.mergeDuplicates` with fallible store updates. -/
def mergeDuplicatesE (es : List Entry) (updateOk : String → Bool) :
    Except String (List Entry × Nat × Nat) :=
  dedupeFold updateOk (groupByTitle es) ([], 0, 0)

theorem processGroupE_ok (updateOk : String → Bool) (l : List Entry)
    (h : ∀ pid, updateOk pid = true) :
    processGroupE updateOk l = .ok (processGroup l) := by
  by_cases hlen : l.length ≤ 1
  · simp [processGroupE, processGroup, hlen]
  · cases heq : sortByDateDesc l with
    | nil => simp [processGroupE, processGroup, hlen, heq]
    | cons master dups => simp [processGroupE, processGroup, hlen, heq, h master.pageId]

theorem dedupeFold_err (updateOk : String → Bool) (gs : List (String × List Entry)) :
    ∀ acc, (∃ g ∈ gs, isErr (processGroupE updateOk g.2) = true) →
      isErr (dedupeFold updateOk gs acc) = true := by
  induction gs with
  | nil =>
    intro acc h
    obtain ⟨g, hg, _⟩ := h
    cases hg
  | cons g0 gs ih =>
    intro acc h
    cases heq : processGroupE updateOk g0.2 with
    | error e => simp [dedupeFold, heq, isErr]
    | ok r =>
      obtain ⟨g, hg, hge⟩ := h
      rcases List.mem_cons.mp hg with rfl | hg
      · rw [heq] at hge
        simp [isErr] at hge
      · simp only [dedupeFold, heq]
        exact ih _ ⟨g, hg, hge⟩

theorem dedupeFold_ok (updateOk : String → Bool) (h : ∀ pid, updateOk pid = true)
    (gs : List (String × List Entry)) :
    ∀ acc, dedupeFold updateOk gs acc =
      .ok (acc.1 ++ ((gs.map fun g => (processGroup g.2).1).flatten),
           acc.2.1 + ((gs.map fun g => (processGroup g.2).2.1).sum),
           acc.2.2 + ((gs.map fun g => (processGroup g.2).2.2).sum)) := by
  induction gs with
  | nil => intro acc; simp [dedupeFold]
  | cons g0 gs ih =>
    intro acc
    simp only [dedupeFold, processGroupE_ok updateOk g0.2 h]
    rw [ih]
    simp only [List.map_cons, List.flatten_cons, List.sum_cons, List.append_assoc, Nat.add_assoc]

/-- C8 (amended): a store failure while processing one duplicate group is
not caught — the whole batch mutation rejects — while a run in which every
update succeeds completes and computes exactly the pure dedupe result. -/
theorem mergeDuplicatesE_error_propagates (es : List Entry) (updateOk : String → Bool) :
    ((∃ g ∈ groupByTitle es, isErr (processGroupE updateOk g.2) = true) →
      isErr (mergeDuplicatesE es updateOk) = true) ∧
    ((∀ pid, updateOk pid = true) →
      mergeDuplicatesE es updateOk = .ok (mergeDuplicates es)) := by
  constructor
  · intro h
    exact dedupeFold_err updateOk (groupByTitle es) ([], 0, 0) h
  · intro h
    rw [mergeDuplicatesE, dedupeFold_ok updateOk h (groupByTitle es) ([], 0, 0)]
    simp [mergeDuplicates]

instance {e a : Type} [DecidableEq e] [DecidableEq a] : DecidableEq (Except e a) := fun x y =>
  match x, y with
  | .error u, .error v => decidable_of_iff (u = v) (by simp)
  | .error _, .ok _ => isFalse (fun h => Except.noConfusion h)
  | .ok _, .error _ => isFalse (fun h => Except.noConfusion h)
  | .ok u, .ok v => decidable_of_iff (u = v) (by simp)

/-- Fixture: two duplicate groups; the first group's master is page `a1`. -/
def exDupA1 : Entry := ⟨"a1", "ua1", "日記 2026/1/20", "• a-one", ["仕事"], "2026-01-20"⟩

def exDupA2 : Entry := ⟨"a2", "ua2", "日記 2026/1/20", "• a-two", ["健康"], "2026-01-19"⟩

def exDupB1 : Entry := ⟨"b1", "ub1", "日記 2026/1/21", "• b-one", ["趣味"], "2026-01-21"⟩

def exDupB2 : Entry := ⟨"b2", "ub2", "日記 2026/1/21", "• b-two", ["食事"], "2026-01-20"⟩

/-- A store in which updating page `a1` fails. -/
def exBadUpdate (pid : String) : Bool := pid != "a1"

/-- C8 counterexample: with two duplicate groups and a store failure on the
first group's update, the batch does not continue to the second group — the
whole mutation rejects with the store error. -/
theorem mergeDuplicatesE_counterexample :
    mergeDuplicatesE [exDupA1, exDupA2, exDupB1, exDupB2] exBadUpdate =
      .error "Failed to update page" := by decide

/-- Witness: the error case at the concrete fixture, and an all-success run
computing the pure dedupe result. -/
theorem mergeDuplicatesE_error_propagates_witness :
    isErr (mergeDuplicatesE [exDupA1, exDupA2, exDupB1, exDupB2] exBadUpdate) = true ∧
    mergeDuplicatesE [exDupA1, exDupA2, exDupB1, exDupB2] (fun _ => true) =
      .ok (mergeDuplicates [exDupA1, exDupA2, exDupB1, exDupB2]) :=
  ⟨(mergeDuplicatesE_error_propagates [exDupA1, exDupA2, exDupB1, exDupB2] exBadUpdate).1
      (by decide),
   (mergeDuplicatesE_error_propagates [exDupA1, exDupA2, exDupB1, exDupB2] (fun _ => true)).2
      (fun _ => rfl)⟩
